import Mathlib

/-!
Verification of the scaffold engine of `create-backend-app`
(`src/utils/scaffold.ts`).

The embedding models filesystem paths as lists of separator-free segments
(`path.sep` is modelled as `"/"`), a directory tree of files as an
association list from relative paths to file contents, and the process
state (`cwd`, existing directories, existing files) as a `World` record.
`process.exit(1)` is modelled as the `Outcome.exited 1` result.  Runtime
I/O failures of `fs.copy` and `fs.rename` (which the source handles in a
single try/catch around both calls) are modelled by a fault oracle
(`Faults`): the copy oracle names the index of the entry whose copy raises,
the rename oracle says whether the attempted rename raises.
-/

namespace CreateBackendApp

/-- A path segment (one component between separators). -/
abbrev Seg := String

/-- A path: the list of its segments.  A relative path of `[]` denotes the
walk root itself (`path.relative(templateDir, templateDir) = ""`). -/
abbrev Path := List Seg

/-- A set of files: relative path of each file together with its content. -/
abbrev Files := List (Path × String)

/-- The `excludePatterns` array of `scaffold.ts` (lines 40-51), verbatim. -/
def excludePatterns : List String :=
  ["node_modules", ".git", "dist", "build", "coverage", ".env",
   ".DS_Store", "package-lock.json", "yarn.lock", "pnpm-lock.yaml"]

/-- `path.sep`-joined view of a segment list: the string
`relativePath` that the filter receives.  (`path.relative` produces the
segments joined by the separator; splitting it back by `path.sep` recovers
the segment list, except that the empty relative path splits to `[""]`,
which contains no pattern, exactly as `[]` here matches no pattern.) -/
def joinSegs : Path → String
  | [] => ""
  | [s] => s
  | s :: rest => s ++ "/" ++ joinSegs rest

/-- The body of `excludePatterns.some(...)` in the copy filter
(`scaffold.ts` lines 54-57): `parts.includes(pattern) ||
relativePath === pattern`, where `parts` is
`relativePath.split(path.sep)`, i.e. the segment list. -/
def shouldExclude (parts : Path) : Bool :=
  excludePatterns.any (fun pattern => parts.contains pattern || joinSegs parts == pattern)

/-- The filter callback passed to `fs.copy`: `true` means copy the entry. -/
def copyFilter (relativePath : Path) : Bool := !shouldExclude relativePath

/-- All nonempty prefixes of a path, outermost first: the directories the
recursive copy descends through on the way to the entry, then the entry
itself. -/
def prefixesOf : Path → List Path
  | [] => []
  | s :: rest => [s] :: (prefixesOf rest).map (fun q => s :: q)

/-- An entry is reached and copied by the recursive walk iff the filter
accepts every directory on the way down and the entry itself (`fs.copy`
does not descend into a directory its filter rejected, so a rejected
directory prunes its whole subtree).  The walk root (relative path `[]`)
always passes the filter (`shouldExclude [] = false`). -/
def survivesWalk (p : Path) : Bool := (prefixesOf p).all copyFilter

/-- First-match lookup of a relative path in a file set. -/
def lookupFile : Files → Path → Option String
  | [], _ => none
  | e :: t, p => if e.1 = p then some e.2 else lookupFile t p

/-- The entries of the template that the copy walk will transfer: those
accepted by the filter at every level whose destination does not already
exist (`overwrite: false`, `errorOnExist: false` skip existing
destinations silently). -/
def copyList (tmpl pre : Files) : Files :=
  tmpl.filter (fun e => survivesWalk e.1 && (lookupFile pre e.1).isNone)

/-- Files under the target after a fault-free
`fs.copy(templateDir, targetPath, { overwrite: false, errorOnExist: false,
filter })`: the pre-existing files, untouched, plus the transferred
entries. -/
def copyFiltered (tmpl pre : Files) : Files := pre ++ copyList tmpl pre

/-- The post-copy fixup of `scaffold.ts` lines 72-77: if a top-level file
`gitignore` exists, `fs.rename` it to `.gitignore`.  `fs.rename` removes
the source name and replaces any existing file at the destination name. -/
def renameFixup (fs : Files) : Files :=
  match lookupFile fs ["gitignore"] with
  | none => fs
  | some c =>
      ([".gitignore"], c) ::
        fs.filter (fun e => !(e.1 == ["gitignore"]) && !(e.1 == [".gitignore"]))

/-- Net effect of the try-block of `scaffold` on the files under the
target when no I/O fault occurs: the filtered copy followed by the
`gitignore` rename fixup. -/
def scaffoldFiles (tmpl pre : Files) : Files := renameFixup (copyFiltered tmpl pre)

/- ### Basic lookup lemmas -/

lemma lookupFile_append_some {a : Files} (b : Files) {p : Path} {c : String}
    (h : lookupFile a p = some c) : lookupFile (a ++ b) p = some c := by
  induction a with
  | nil => simp [lookupFile] at h
  | cons e t ih =>
    rw [List.cons_append, lookupFile]
    rw [lookupFile] at h
    split at h
    · rw [if_pos (by assumption)]; exact h
    · rw [if_neg (by assumption)]; exact ih h

lemma lookupFile_append_none {a : Files} (b : Files) {p : Path}
    (h : lookupFile a p = none) : lookupFile (a ++ b) p = lookupFile b p := by
  induction a with
  | nil => rfl
  | cons e t ih =>
    rw [List.cons_append, lookupFile]
    rw [lookupFile] at h
    split at h
    · exact absurd h (by simp)
    · rw [if_neg (by assumption)]; exact ih h

lemma lookupFile_filter_true (l : Files) (q : Path × String → Bool) (p : Path)
    (hq : ∀ e : Path × String, e.1 = p → q e = true) :
    lookupFile (l.filter q) p = lookupFile l p := by
  induction l with
  | nil => rfl
  | cons e t ih =>
    rw [List.filter_cons]
    by_cases hep : e.1 = p
    · rw [hq e hep, if_pos rfl]
      rw [lookupFile, if_pos hep, lookupFile, if_pos hep]
    · cases hqe : q e
      · rw [if_neg (by simp)]
        rw [ih, lookupFile, if_neg hep]
      · rw [if_pos rfl]
        rw [lookupFile, if_neg hep, lookupFile, if_neg hep, ih]

lemma lookupFile_filter_false (l : Files) (q : Path × String → Bool) (p : Path)
    (hq : ∀ e : Path × String, e.1 = p → q e = false) :
    lookupFile (l.filter q) p = none := by
  induction l with
  | nil => rfl
  | cons e t ih =>
    rw [List.filter_cons]
    by_cases hep : e.1 = p
    · rw [hq e hep, if_neg (by simp)]
      exact ih
    · cases hqe : q e
      · rw [if_neg (by simp)]
        exact ih
      · rw [if_pos rfl]
        rw [lookupFile, if_neg hep]
        exact ih

/- ### Exclusion-filter lemmas -/

lemma contains_eq_true (l : List String) (s : String) : l.contains s = true ↔ s ∈ l := by
  rw [List.contains]
  exact List.elem_iff

lemma mem_prefixesOf {p q : Path} (h : q ∈ prefixesOf p) : q ≠ [] ∧ ∀ s ∈ q, s ∈ p := by
  induction p generalizing q with
  | nil => simp [prefixesOf] at h
  | cons a t ih =>
    rw [prefixesOf, List.mem_cons, List.mem_map] at h
    rcases h with h | ⟨r, hr, hq⟩
    · subst h
      refine ⟨by simp, ?_⟩
      intro s hs
      rw [List.mem_singleton] at hs
      rw [hs]
      exact List.mem_cons_self _ _
    · subst hq
      refine ⟨by simp, ?_⟩
      intro s hs
      rw [List.mem_cons] at hs
      rcases hs with hs | hs
      · rw [hs]; exact List.mem_cons_self _ _
      · exact List.mem_cons_of_mem a ((ih hr).2 s hs)

lemma self_mem_prefixesOf (p : Path) (h : p ≠ []) : p ∈ prefixesOf p := by
  induction p with
  | nil => exact absurd rfl h
  | cons a t ih =>
    rw [prefixesOf, List.mem_cons]
    cases t with
    | nil => left; rfl
    | cons b s =>
      right
      rw [List.mem_map]
      exact ⟨b :: s, ih (by simp), rfl⟩

lemma shouldExclude_of_mem {p : Path} {s : Seg} (hs : s ∈ p) (hmem : s ∈ excludePatterns) :
    shouldExclude p = true := by
  rw [shouldExclude, List.any_eq_true]
  refine ⟨s, hmem, ?_⟩
  rw [Bool.or_eq_true]
  exact Or.inl ((contains_eq_true p s).2 hs)

lemma joinSegs_cons_cons (a b : Seg) (t : Path) :
    joinSegs (a :: b :: t) = a ++ "/" ++ joinSegs (b :: t) := rfl

lemma slash_mem_joinSegs (a b : Seg) (t : Path) : '/' ∈ (joinSegs (a :: b :: t)).data := by
  rw [joinSegs_cons_cons, String.data_append, String.data_append]
  apply List.mem_append_left
  apply List.mem_append_right
  decide

lemma slash_not_mem_patterns : ∀ pt ∈ excludePatterns, '/' ∉ pt.data := by decide

lemma empty_not_mem_patterns : ("" : String) ∉ excludePatterns := by decide

lemma shouldExclude_false_of {q : Path} (h : ∀ s ∈ q, s ∉ excludePatterns) :
    shouldExclude q = false := by
  rw [shouldExclude, Bool.eq_false_iff]
  intro hany
  rw [List.any_eq_true] at hany
  obtain ⟨pt, hpt, hor⟩ := hany
  rw [Bool.or_eq_true] at hor
  rcases hor with hc | hj
  · exact h pt ((contains_eq_true q pt).1 hc) hpt
  · rw [beq_iff_eq] at hj
    match q with
    | [] => rw [show joinSegs [] = "" from rfl] at hj; rw [← hj] at hpt
            exact empty_not_mem_patterns hpt
    | [a] => rw [show joinSegs [a] = a from rfl] at hj; rw [hj] at h
             exact h pt (List.mem_singleton.2 rfl) hpt
    | a :: b :: t =>
        have hmem := slash_mem_joinSegs a b t
        rw [hj] at hmem
        exact slash_not_mem_patterns pt hpt hmem

lemma survivesWalk_true_of {p : Path} (h : ∀ s ∈ p, s ∉ excludePatterns) :
    survivesWalk p = true := by
  rw [survivesWalk, List.all_eq_true]
  intro q hq
  obtain ⟨_, hsub⟩ := mem_prefixesOf hq
  rw [copyFilter, Bool.not_eq_true']
  exact shouldExclude_false_of (fun s hs => h s (hsub s hs))

lemma survivesWalk_false_of_mem {p : Path} {s : Seg} (hs : s ∈ p) (hmem : s ∈ excludePatterns) :
    survivesWalk p = false := by
  rw [survivesWalk, Bool.eq_false_iff]
  intro hall
  rw [List.all_eq_true] at hall
  have hp : p ∈ prefixesOf p := self_mem_prefixesOf p (by rintro rfl; cases hs)
  have hcf := hall p hp
  rw [copyFilter, Bool.not_eq_true', shouldExclude_of_mem hs hmem] at hcf
  cases hcf

/- ### Copy-phase lookup lemmas -/

lemma lookupFile_copyList_eq {tmpl pre : Files} {p : Path}
    (hs : survivesWalk p = true) (hp : lookupFile pre p = none) :
    lookupFile (copyList tmpl pre) p = lookupFile tmpl p := by
  apply lookupFile_filter_true
  intro e he
  rw [he, hs, hp]
  rfl

lemma lookupFile_copyList_none_of_excluded {tmpl pre : Files} {p : Path}
    (hs : survivesWalk p = false) :
    lookupFile (copyList tmpl pre) p = none := by
  apply lookupFile_filter_false
  intro e he
  rw [he, hs]
  rfl

lemma lookupFile_copyList_none_of_pre {tmpl pre : Files} {p : Path} {c : String}
    (hp : lookupFile pre p = some c) :
    lookupFile (copyList tmpl pre) p = none := by
  apply lookupFile_filter_false
  intro e he
  rw [he, hp]
  simp

lemma lookup_copyFiltered_pre {tmpl pre : Files} {p : Path} {c : String}
    (h : lookupFile pre p = some c) :
    lookupFile (copyFiltered tmpl pre) p = some c :=
  lookupFile_append_some _ h

lemma lookup_copyFiltered_new {tmpl pre : Files} {p : Path}
    (hs : survivesWalk p = true) (hp : lookupFile pre p = none) :
    lookupFile (copyFiltered tmpl pre) p = lookupFile tmpl p := by
  rw [copyFiltered, lookupFile_append_none _ hp]
  exact lookupFile_copyList_eq hs hp

lemma lookup_copyFiltered_excluded {tmpl pre : Files} {p : Path}
    (hs : survivesWalk p = false) :
    lookupFile (copyFiltered tmpl pre) p = lookupFile pre p := by
  cases hlp : lookupFile pre p with
  | some c => exact lookup_copyFiltered_pre hlp
  | none =>
    rw [copyFiltered, lookupFile_append_none _ hlp]
    exact lookupFile_copyList_none_of_excluded hs

/- ### Rename-fixup lemmas -/

lemma renameFixup_eq_self {fs : Files} (h : lookupFile fs ["gitignore"] = none) :
    renameFixup fs = fs := by
  simp only [renameFixup, h]

lemma lookup_renameFixup_g (fs : Files) :
    lookupFile (renameFixup fs) ["gitignore"] = none := by
  cases h : lookupFile fs ["gitignore"] with
  | none => rw [renameFixup_eq_self h]; exact h
  | some c =>
    simp only [renameFixup, h]
    rw [lookupFile, if_neg (by simp)]
    apply lookupFile_filter_false
    intro e he
    rw [he]
    decide

lemma lookup_renameFixup_ne (fs : Files) {p : Path}
    (h1 : p ≠ ["gitignore"]) (h2 : p ≠ [".gitignore"]) :
    lookupFile (renameFixup fs) p = lookupFile fs p := by
  cases h : lookupFile fs ["gitignore"] with
  | none => rw [renameFixup_eq_self h]
  | some c =>
    simp only [renameFixup, h]
    rw [lookupFile, if_neg (fun hh => h2 hh.symm)]
    apply lookupFile_filter_true
    intro e he
    rw [he]
    simp [h1, h2]

lemma lookup_renameFixup_dot_some (fs : Files) {c : String}
    (h : lookupFile fs ["gitignore"] = some c) :
    lookupFile (renameFixup fs) [".gitignore"] = some c := by
  simp only [renameFixup, h]
  rw [lookupFile, if_pos rfl]

lemma lookup_renameFixup_dot_none (fs : Files)
    (h : lookupFile fs ["gitignore"] = none) :
    lookupFile (renameFixup fs) [".gitignore"] = lookupFile fs [".gitignore"] := by
  rw [renameFixup_eq_self h]

lemma survivesWalk_gitignore : survivesWalk ["gitignore"] = true := by decide

/- ### Claims about the copy filter and the file-level scaffold effect -/

/-- Claim C1: every entry under the template whose relative path has a
segment equal, by exact case-sensitive comparison, to a member of the
exclusion set is rejected by the copy filter at any nesting depth, and the
whole scaffold (copy plus rename fixup) leaves the target unchanged at
that relative path — in particular the entry is absent from any target
that did not already hold a file there. -/
theorem exclusion_completeness (tmpl pre : Files) (p : Path) (s : Seg)
    (hs : s ∈ p) (hmem : s ∈ excludePatterns) :
    copyFilter p = false ∧
    lookupFile (scaffoldFiles tmpl pre) p = lookupFile pre p := by
  have hsw := survivesWalk_false_of_mem hs hmem
  have hpg : p ≠ ["gitignore"] := by
    rintro rfl
    rw [List.mem_singleton] at hs
    rw [hs] at hmem
    exact absurd hmem (by decide)
  have hpd : p ≠ [".gitignore"] := by
    rintro rfl
    rw [List.mem_singleton] at hs
    rw [hs] at hmem
    exact absurd hmem (by decide)
  refine ⟨?_, ?_⟩
  · simp [copyFilter, shouldExclude_of_mem hs hmem]
  · rw [scaffoldFiles, lookup_renameFixup_ne _ hpg hpd]
    exact lookup_copyFiltered_excluded hsw

/-- Witness for C1: the nested entry `node_modules/x/y.js`, scaffolded
into an empty target, is filtered out and absent afterwards. -/
theorem exclusion_completeness_witness :
    ("node_modules" ∈ (["node_modules", "x", "y.js"] : Path)) ∧
    "node_modules" ∈ excludePatterns ∧
    (copyFilter ["node_modules", "x", "y.js"] = false ∧
      lookupFile (scaffoldFiles [(["node_modules", "x", "y.js"], "js")] [])
        ["node_modules", "x", "y.js"]
        = lookupFile [] ["node_modules", "x", "y.js"]) :=
  ⟨by decide, by decide,
    exclusion_completeness [(["node_modules", "x", "y.js"], "js")] []
      ["node_modules", "x", "y.js"] "node_modules" (by decide) (by decide)⟩

/-- Claim C2: an entry whose relative path matches the exclusion set
neither segment-wise nor as a whole passes the copy filter, and the copy
places it at the identical relative path with identical content whenever
its destination is not already occupied.  Exclusion is exact segment
equality, so a file named `.env.example` is copied even though `.env` is
excluded — the witness instantiates exactly that file. -/
theorem nonexclusion_preservation (tmpl pre : Files) (p : Path) (c : String)
    (hseg : ∀ s ∈ p, s ∉ excludePatterns)
    (_hwhole : joinSegs p ∉ excludePatterns)
    (hpre : lookupFile pre p = none)
    (htmpl : lookupFile tmpl p = some c) :
    copyFilter p = true ∧ lookupFile (copyFiltered tmpl pre) p = some c := by
  refine ⟨?_, ?_⟩
  · simp [copyFilter, shouldExclude_false_of hseg]
  · rw [lookup_copyFiltered_new (survivesWalk_true_of hseg) hpre]
    exact htmpl

/-- Witness for C2: `.env.example` is not excluded (only the exact
segment `.env` is) and is copied with identical content. -/
theorem nonexclusion_preservation_witness :
    (∀ s ∈ ([".env.example"] : Path), s ∉ excludePatterns) ∧
    joinSegs [".env.example"] ∉ excludePatterns ∧
    lookupFile [] [".env.example"] = (none : Option String) ∧
    (copyFilter [".env.example"] = true ∧
      lookupFile (copyFiltered [([".env.example"], "KEY=")] []) [".env.example"]
        = some "KEY=") :=
  ⟨by decide, by decide, rfl,
    nonexclusion_preservation [([".env.example"], "KEY=")] [] [".env.example"] "KEY="
      (by decide) (by decide) rfl rfl⟩

/-- Claim C3: when the template holds a top-level file `gitignore` (and
the target does not already hold one), the finished scaffold has
`.gitignore` with the template's content and no file literally named
`gitignore`; when no top-level `gitignore` exists after the copy, the
rename step is the identity (a silent no-op); and the rename is applied
to the completed result of the copy phase. -/
theorem gitignore_rename_fixup (tmpl pre : Files) (c : String)
    (htmpl : lookupFile tmpl ["gitignore"] = some c)
    (hpre : lookupFile pre ["gitignore"] = none) :
    lookupFile (scaffoldFiles tmpl pre) [".gitignore"] = some c ∧
    lookupFile (scaffoldFiles tmpl pre) ["gitignore"] = none ∧
    (∀ fs : Files, lookupFile fs ["gitignore"] = none → renameFixup fs = fs) ∧
    scaffoldFiles tmpl pre = renameFixup (copyFiltered tmpl pre) := by
  have hcg : lookupFile (copyFiltered tmpl pre) ["gitignore"] = some c := by
    rw [lookup_copyFiltered_new survivesWalk_gitignore hpre]
    exact htmpl
  exact ⟨lookup_renameFixup_dot_some _ hcg, lookup_renameFixup_g _,
    fun fs h => renameFixup_eq_self h, rfl⟩

/-- Witness for C3: a template shipping `gitignore` scaffolded into an
empty target yields `.gitignore` with identical content and no
`gitignore`. -/
theorem gitignore_rename_fixup_witness :
    lookupFile [(["gitignore"], "dist")] ["gitignore"] = some "dist" ∧
    lookupFile [] ["gitignore"] = (none : Option String) ∧
    (lookupFile (scaffoldFiles [(["gitignore"], "dist")] []) [".gitignore"] = some "dist" ∧
      lookupFile (scaffoldFiles [(["gitignore"], "dist")] []) ["gitignore"] = none ∧
      (∀ fs : Files, lookupFile fs ["gitignore"] = none → renameFixup fs = fs) ∧
      scaffoldFiles [(["gitignore"], "dist")] []
        = renameFixup (copyFiltered [(["gitignore"], "dist")] [])) :=
  ⟨rfl, rfl, gitignore_rename_fixup [(["gitignore"], "dist")] [] "dist" rfl rfl⟩

/-- Claim C7: during the copy phase a file already present at the
destination is never overwritten — its pre-existing content is unchanged —
the collision is no error, and the walk continues: any other surviving
entry with a free destination is still copied. -/
theorem copy_no_overwrite (tmpl pre : Files) (p q : Path) (c : String)
    (hpre : lookupFile pre p = some c)
    (hq : survivesWalk q = true) (hqpre : lookupFile pre q = none) :
    lookupFile (copyFiltered tmpl pre) p = some c ∧
    lookupFile (copyFiltered tmpl pre) q = lookupFile tmpl q :=
  ⟨lookup_copyFiltered_pre hpre, lookup_copyFiltered_new hq hqpre⟩

/-- Witness for C7: the destination `a.txt` keeps its pre-existing
content `old` while the sibling `b.txt` is still copied. -/
theorem copy_no_overwrite_witness :
    lookupFile [(["a.txt"], "old")] ["a.txt"] = some "old" ∧
    survivesWalk ["b.txt"] = true ∧
    lookupFile [(["a.txt"], "old")] ["b.txt"] = none ∧
    (lookupFile (copyFiltered [(["a.txt"], "new"), (["b.txt"], "B")]
        [(["a.txt"], "old")]) ["a.txt"] = some "old" ∧
      lookupFile (copyFiltered [(["a.txt"], "new"), (["b.txt"], "B")]
        [(["a.txt"], "old")]) ["b.txt"]
        = lookupFile [(["a.txt"], "new"), (["b.txt"], "B")] ["b.txt"]) :=
  ⟨rfl, by decide, rfl,
    copy_no_overwrite [(["a.txt"], "new"), (["b.txt"], "B")] [(["a.txt"], "old")]
      ["a.txt"] ["b.txt"] "old" rfl (by decide) rfl⟩

/-- Claim C9 (implicit): when the target already holds `.gitignore` and
the template ships a top-level `gitignore`, the copy phase leaves the
pre-existing `.gitignore` untouched, but the rename step then replaces
its content with the template's `gitignore` content — unlike the copy,
the rename does overwrite an existing destination file. -/
theorem rename_overwrites_gitignore (tmpl pre : Files) (ct cold : String)
    (htmpl : lookupFile tmpl ["gitignore"] = some ct)
    (hpre : lookupFile pre ["gitignore"] = none)
    (hpreDot : lookupFile pre [".gitignore"] = some cold) :
    lookupFile (copyFiltered tmpl pre) [".gitignore"] = some cold ∧
    lookupFile (scaffoldFiles tmpl pre) [".gitignore"] = some ct := by
  have hcg : lookupFile (copyFiltered tmpl pre) ["gitignore"] = some ct := by
    rw [lookup_copyFiltered_new survivesWalk_gitignore hpre]
    exact htmpl
  exact ⟨lookup_copyFiltered_pre hpreDot, lookup_renameFixup_dot_some _ hcg⟩

/-- Witness for C9: a pre-existing `.gitignore` containing `OLD` survives
the copy phase but ends up containing the template's `NEW` after the
rename. -/
theorem rename_overwrites_gitignore_witness :
    lookupFile [(["gitignore"], "NEW")] ["gitignore"] = some "NEW" ∧
    lookupFile [([".gitignore"], "OLD")] ["gitignore"] = none ∧
    lookupFile [([".gitignore"], "OLD")] [".gitignore"] = some "OLD" ∧
    (lookupFile (copyFiltered [(["gitignore"], "NEW")] [([".gitignore"], "OLD")])
        [".gitignore"] = some "OLD" ∧
      lookupFile (scaffoldFiles [(["gitignore"], "NEW")] [([".gitignore"], "OLD")])
        [".gitignore"] = some "NEW") :=
  ⟨rfl, rfl, rfl,
    rename_overwrites_gitignore [(["gitignore"], "NEW")] [([".gitignore"], "OLD")]
      "NEW" "OLD" rfl rfl rfl⟩

/- ### Idempotence of the file-level effect (second run) -/

lemma scaffoldFiles_idem {tmpl pre : Files} {p : Path} {c : String}
    (hpre : lookupFile pre ["gitignore"] = none)
    (h1 : lookupFile (scaffoldFiles tmpl pre) p = some c) :
    lookupFile (scaffoldFiles tmpl (scaffoldFiles tmpl pre)) p = some c := by
  have hs1g : lookupFile (scaffoldFiles tmpl pre) ["gitignore"] = none :=
    lookup_renameFixup_g _
  by_cases hpd : p = [".gitignore"]
  · subst hpd
    have hc1g : lookupFile (copyFiltered tmpl pre) ["gitignore"]
        = lookupFile tmpl ["gitignore"] :=
      lookup_copyFiltered_new survivesWalk_gitignore hpre
    have hc2g : lookupFile (copyFiltered tmpl (scaffoldFiles tmpl pre)) ["gitignore"]
        = lookupFile tmpl ["gitignore"] :=
      lookup_copyFiltered_new survivesWalk_gitignore hs1g
    cases htg : lookupFile tmpl ["gitignore"] with
    | none =>
      have h2 : lookupFile (copyFiltered tmpl (scaffoldFiles tmpl pre)) [".gitignore"]
          = some c := lookup_copyFiltered_pre h1
      have hfix := lookup_renameFixup_dot_none (copyFiltered tmpl (scaffoldFiles tmpl pre))
        (by rw [hc2g, htg])
      exact hfix.trans h2
    | some ct =>
      have hs1d : lookupFile (scaffoldFiles tmpl pre) [".gitignore"] = some ct :=
        lookup_renameFixup_dot_some _ (by rw [hc1g, htg])
      rw [h1] at hs1d
      have hcc : c = ct := Option.some.inj hs1d
      rw [hcc]
      exact lookup_renameFixup_dot_some _ (by rw [hc2g, htg])
  · by_cases hpg : p = ["gitignore"]
    · subst hpg
      rw [h1] at hs1g
      cases hs1g
    · have h2 : lookupFile (copyFiltered tmpl (scaffoldFiles tmpl pre)) p = some c :=
        lookup_copyFiltered_pre h1
      have hfix := lookup_renameFixup_ne (copyFiltered tmpl (scaffoldFiles tmpl pre)) hpg hpd
      exact hfix.trans h2

/- ### Process-level model -/

/-- The process state seen by `scaffold`: the working directory, the
existing directories and the existing files (absolute path, content). -/
structure World where
  cwd : Path
  dirs : List Path
  files : Files
deriving DecidableEq

/-- `fs.pathExists`: the path names an existing directory or file. -/
def pathExists (w : World) (p : Path) : Bool :=
  w.dirs.any (fun q => q == p) || (lookupFile w.files p).isSome

/-- Target resolution (`scaffold.ts` line 9):
`projectName === "." ? cwd : path.join(cwd, projectName)`.  The project
name is modelled as a single separator-free segment. -/
def targetPath (cwd : Path) (projectName : String) : Path :=
  if projectName = "." then cwd else cwd ++ [projectName]

/-- `fs.ensureDir` (`mkdir -p`): create the directory and every missing
ancestor. -/
def ensureDir (w : World) (p : Path) : World :=
  { w with dirs := w.dirs ++ (prefixesOf p).filter (fun q => !w.dirs.any (fun r => r == q)) }

/-- The directory policy (`scaffold.ts` lines 14-21): reuse the working
directory for the sentinel name `"."`, reuse an already-existing target,
otherwise create the target directory. -/
def dirPolicy (w : World) (projectName : String) : World :=
  if projectName = "." then w
  else if pathExists w (targetPath w.cwd projectName) then w
  else ensureDir w (targetPath w.cwd projectName)

/-- Result of a run: the returned target path, or process termination
with an exit code (`process.exit(1)`). -/
inductive Outcome where
  | ok (target : Path)
  | exited (code : Nat)
deriving DecidableEq

/-- Fault oracle for the try-block: `copyFailAt = some k` makes the copy
of the `k`-th transferred entry raise an I/O error (when the walk reaches
a `k`-th entry); `renameFail` makes `fs.rename` raise if it is
attempted. -/
structure Faults where
  copyFailAt : Option Nat
  renameFail : Bool
deriving DecidableEq

/-- The fault-free oracle. -/
def noFaults : Faults := ⟨none, false⟩

/-- `fs.copy` under the fault oracle: either the full filtered copy, or
an error raised midway leaving the entries copied so far in place
(fs-extra performs no rollback). -/
def copyAttempt (tmpl pre : Files) (failAt : Option Nat) : Except Files Files :=
  match failAt with
  | none => Except.ok (copyFiltered tmpl pre)
  | some k =>
      if k < (copyList tmpl pre).length
      then Except.error (pre ++ (copyList tmpl pre).take k)
      else Except.ok (copyFiltered tmpl pre)

/-- Whether `base` is an initial segment of `p`. -/
def hasBase : Path → Path → Bool
  | [], _ => true
  | _ :: _, [] => false
  | b :: bs, s :: ss => b == s && hasBase bs ss

/-- The path of `p` relative to `base`, when `p` lies under `base`. -/
def stripBase (base p : Path) : Option Path :=
  if hasBase base p then some (p.drop base.length) else none

/-- Relative view of one absolute file entry with respect to a base
directory (the base itself yields nothing: it is a directory). -/
def relEntry (base : Path) (e : Path × String) : Option (Path × String) :=
  match stripBase base e.1 with
  | some [] => none
  | some rel => some (rel, e.2)
  | none => none

/-- The files strictly under a directory, keyed by relative path. -/
def relFilesUnder (w : World) (base : Path) : Files :=
  w.files.filterMap (relEntry base)

/-- Replace the file tree strictly under `base` by the given relative
file set; files elsewhere are untouched. -/
def setFilesUnder (w : World) (base : Path) (rel : Files) : World :=
  { w with files :=
      w.files.filter (fun e => !(hasBase base e.1 && decide (base.length < e.1.length)))
        ++ rel.map (fun e => (base ++ e.1, e.2)) }

/-- Result record of one `scaffold` run. -/
structure RunResult where
  outcome : Outcome
  world : World

/-- The `scaffold(projectName, templateDir)` routine of `scaffold.ts`, in
source order: resolve the target, apply the directory policy, validate
the template directory (missing template: `process.exit(1)` before any
copy), then run the filtered copy and the `gitignore` rename inside one
try/catch whose handler is `process.exit(1)`.  A failed copy keeps the
entries copied so far; a failed rename keeps the copied files unchanged
(`fs.rename` either succeeds or changes nothing). -/
def scaffold (w : World) (projectName : String) (templateDir : Path) (f : Faults) :
    RunResult :=
  let target := targetPath w.cwd projectName
  let w1 := dirPolicy w projectName
  if pathExists w1 templateDir then
    match copyAttempt (relFilesUnder w1 templateDir) (relFilesUnder w1 target)
        f.copyFailAt with
    | Except.error done => ⟨Outcome.exited 1, setFilesUnder w1 target done⟩
    | Except.ok copied =>
      match lookupFile copied ["gitignore"] with
      | none => ⟨Outcome.ok target, setFilesUnder w1 target copied⟩
      | some _ =>
        if f.renameFail then ⟨Outcome.exited 1, setFilesUnder w1 target copied⟩
        else ⟨Outcome.ok target, setFilesUnder w1 target (renameFixup copied)⟩
  else ⟨Outcome.exited 1, w1⟩

/- ### Lemmas about the process-level model -/

lemma prefixesOf_append_one (l : Path) (x : Seg) :
    prefixesOf (l ++ [x]) = prefixesOf l ++ [l ++ [x]] := by
  induction l with
  | nil => rfl
  | cons a t ih =>
    show [a] :: (prefixesOf (t ++ [x])).map (fun q => a :: q)
        = ([a] :: (prefixesOf t).map (fun q => a :: q)) ++ [(a :: t) ++ [x]]
    rw [ih, List.map_append]
    rfl

lemma hasBase_append (base r : Path) : hasBase base (base ++ r) = true := by
  induction base with
  | nil => rfl
  | cons b bs ih => simp [hasBase, ih]

lemma eq_append_drop_of_hasBase {base p : Path} (h : hasBase base p = true) :
    p = base ++ p.drop base.length := by
  induction base generalizing p with
  | nil => simp
  | cons b bs ih =>
    cases p with
    | nil => simp [hasBase] at h
    | cons x xs =>
      rw [hasBase, Bool.and_eq_true, beq_iff_eq] at h
      obtain ⟨hb, h2⟩ := h
      rw [hb]
      show x :: xs = x :: (bs ++ (x :: xs).drop (bs.length + 1))
      rw [List.drop_succ_cons]
      exact congrArg (x :: ·) (ih h2)

lemma stripBase_append (base r : Path) : stripBase base (base ++ r) = some r := by
  simp only [stripBase, hasBase_append, if_true]
  rw [List.drop_left]

lemma relEntry_append_nil (base : Path) (c : String) :
    relEntry base (base ++ [], c) = none := by
  simp only [relEntry, stripBase_append]

lemma relEntry_append_cons (base : Path) (a : Seg) (s : Path) (c : String) :
    relEntry base (base ++ (a :: s), c) = some (a :: s, c) := by
  simp only [relEntry, stripBase_append]

lemma lookup_filterMap_relEntry (base : Path) (rel : Files) {p : Path} (hp : p ≠ []) :
    lookupFile ((rel.map (fun e => (base ++ e.1, e.2))).filterMap (relEntry base)) p
      = lookupFile rel p := by
  induction rel with
  | nil => rfl
  | cons e t ih =>
    rw [List.map_cons, List.filterMap_cons]
    obtain ⟨ep, ec⟩ := e
    cases ep with
    | nil =>
      rw [relEntry_append_nil, ih]
      rw [lookupFile, if_neg (fun hh => hp hh.symm)]
    | cons a s =>
      rw [relEntry_append_cons]
      rw [lookupFile, lookupFile]
      by_cases hap : a :: s = p
      · rw [if_pos hap, if_pos hap]
      · rw [if_neg hap, if_neg hap, ih]

lemma lookup_relFilesUnder_set (w : World) (base : Path) (rel : Files) {p : Path}
    (hp : p ≠ []) :
    lookupFile (relFilesUnder (setFilesUnder w base rel) base) p = lookupFile rel p := by
  simp only [relFilesUnder, setFilesUnder]
  rw [List.filterMap_append]
  have h1 : List.filterMap (relEntry base)
      (w.files.filter (fun e => !(hasBase base e.1 && decide (base.length < e.1.length))))
      = [] := by
    rw [List.filterMap_eq_nil_iff]
    intro e he
    rw [List.mem_filter] at he
    cases hb : hasBase base e.1 with
    | false => simp [relEntry, stripBase, hb]
    | true =>
      have hkeep := he.2
      rw [hb] at hkeep
      have hlt : ¬ base.length < e.1.length := by simpa using hkeep
      have heq := eq_append_drop_of_hasBase hb
      have hdrop : e.1.drop base.length = [] := by
        cases hd : e.1.drop base.length with
        | nil => rfl
        | cons a s =>
          exfalso
          apply hlt
          have hlen : e.1.length = base.length + (e.1.drop base.length).length := by
            conv_lhs => rw [heq]
            rw [List.length_append]
          rw [hd] at hlen
          simp only [List.length_cons] at hlen
          omega
      simp [relEntry, stripBase, hb, hdrop]
  rw [h1, List.nil_append]
  exact lookup_filterMap_relEntry base rel hp

/- ### Claims about the process-level behaviour -/

/-- Claim C5: for the sentinel project name `"."` the resolved target is
the working directory itself (no join is performed) and the directory
policy changes nothing; `ensureDir` runs exactly when the project name is
not the sentinel and the target does not already exist, and an existing
or sentinel target is reused as-is. -/
theorem sentinel_target_semantics (w : World) (pn : String) :
    targetPath w.cwd "." = w.cwd ∧
    dirPolicy w "." = w ∧
    (pn = "." ∨ pathExists w (targetPath w.cwd pn) = true → dirPolicy w pn = w) ∧
    (pn ≠ "." → pathExists w (targetPath w.cwd pn) = false →
      dirPolicy w pn = ensureDir w (targetPath w.cwd pn)) := by
  refine ⟨if_pos rfl, ?_, ?_, ?_⟩
  · rw [dirPolicy, if_pos rfl]
  · rintro (h | h)
    · rw [dirPolicy, if_pos h]
    · by_cases hpn : pn = "."
      · rw [dirPolicy, if_pos hpn]
      · rw [dirPolicy, if_neg hpn, if_pos h]
  · intro h1 h2
    rw [dirPolicy, if_neg h1, if_neg (by simp [h2])]

/-- A small example world for the process-level witnesses. -/
def wEx : World := ⟨["home"], [["home"]], []⟩

/-- Witness for C5: in `wEx` the sentinel resolves to the working
directory and changes nothing, while the fresh name `app` triggers
directory creation. -/
theorem sentinel_target_semantics_witness :
    targetPath wEx.cwd "." = wEx.cwd ∧
    dirPolicy wEx "." = wEx ∧
    dirPolicy wEx "app" = ensureDir wEx (targetPath wEx.cwd "app") := by
  have h := sentinel_target_semantics wEx "app"
  exact ⟨h.1, h.2.1, h.2.2.2 (by decide) (by decide)⟩

/-- Claim C4: when the template directory does not exist (checked, as in
the source, after the directory policy has run), scaffold exits with
code 1; no file is created or modified, and — provided the working
directory and its ancestors exist — the only possible new directory is
the target itself, created before the validation. -/
theorem missing_template_fatal (w : World) (pn : String) (td : Path) (f : Faults)
    (hw : ∀ q ∈ prefixesOf w.cwd, q ∈ w.dirs)
    (htd : pathExists (dirPolicy w pn) td = false) :
    (scaffold w pn td f).outcome = Outcome.exited 1 ∧
    (scaffold w pn td f).world.files = w.files ∧
    ∀ d ∈ (scaffold w pn td f).world.dirs, d ∈ w.dirs ∨ d = targetPath w.cwd pn := by
  have hres : scaffold w pn td f = ⟨Outcome.exited 1, dirPolicy w pn⟩ := by
    simp only [scaffold, htd]
    simp
  rw [hres]
  refine ⟨rfl, ?_, ?_⟩
  · rw [dirPolicy]
    split
    · rfl
    · split
      · rfl
      · rfl
  · intro d hd
    by_cases hpn : pn = "."
    · rw [dirPolicy, if_pos hpn] at hd
      exact Or.inl hd
    · rw [dirPolicy, if_neg hpn] at hd
      by_cases hex : pathExists w (targetPath w.cwd pn) = true
      · rw [if_pos hex] at hd
        exact Or.inl hd
      · rw [if_neg hex] at hd
        simp only [ensureDir] at hd
        rw [List.mem_append] at hd
        rcases hd with hd | hd
        · exact Or.inl hd
        · rw [List.mem_filter] at hd
          have hd1 := hd.1
          rw [targetPath, if_neg hpn, prefixesOf_append_one, List.mem_append] at hd1
          rcases hd1 with hd1 | hd1
          · exact Or.inl (hw d hd1)
          · rw [List.mem_singleton] at hd1
            right
            rw [targetPath, if_neg hpn]
            exact hd1

/-- Witness for C4: scaffolding `app` in `wEx` against the missing
template directory `tpl` exits with code 1, leaves the files untouched
and creates at most the target directory. -/
theorem missing_template_fatal_witness :
    (∀ q ∈ prefixesOf wEx.cwd, q ∈ wEx.dirs) ∧
    pathExists (dirPolicy wEx "app") ["tpl"] = false ∧
    ((scaffold wEx "app" ["tpl"] noFaults).outcome = Outcome.exited 1 ∧
      (scaffold wEx "app" ["tpl"] noFaults).world.files = wEx.files ∧
      (["home", "app"] ∈ (scaffold wEx "app" ["tpl"] noFaults).world.dirs →
        ["home", "app"] ∈ wEx.dirs ∨ ["home", "app"] = targetPath wEx.cwd "app")) := by
  have h := missing_template_fatal wEx "app" ["tpl"] noFaults (by decide) (by decide)
  exact ⟨by decide, by decide, h.1, h.2.1, fun hm => h.2.2 ["home", "app"] hm⟩

/-- Counterexample to claim C6 as stated: scaffold twice with the same
inputs into a target that initially holds a top-level file literally
named `gitignore` (content `old`; the template ships `gitignore` with
content `new`).  The first run renames the pre-existing file, so after it
`.gitignore` holds `old`; the second run re-copies the template
`gitignore` (its destination was renamed away) and its rename fixup then
overwrites `.gitignore` with `new`.  The file `.gitignore`, present
before the second run with content `old`, does not keep its content. -/
theorem idempotent_reuse_counterexample :
    lookupFile (scaffoldFiles [(["gitignore"], "new")] [(["gitignore"], "old")])
      [".gitignore"] = some "old" ∧
    lookupFile (scaffoldFiles [(["gitignore"], "new")]
        (scaffoldFiles [(["gitignore"], "new")] [(["gitignore"], "old")]))
      [".gitignore"] = some "new" := by
  constructor <;> rfl

/-- Claim C6 amended: a second run never fails because the target
directory already exists — with the template present and no I/O fault the
run returns the target path for any initial world — and every file
present before the second run keeps byte-identical content, provided the
target before the first run held no top-level file literally named
`gitignore` (the one exception forced by the counterexample: such a file
makes the rename fixup rewrite `.gitignore` on the second run). -/
theorem idempotent_reuse_amended (w : World) (pn : String) (td : Path)
    (tmpl pre : Files) (p : Path) (c : String)
    (htd : pathExists (dirPolicy w pn) td = true)
    (hpre : lookupFile pre ["gitignore"] = none)
    (h1 : lookupFile (scaffoldFiles tmpl pre) p = some c) :
    (scaffold w pn td noFaults).outcome = Outcome.ok (targetPath w.cwd pn) ∧
    lookupFile (scaffoldFiles tmpl (scaffoldFiles tmpl pre)) p = some c := by
  refine ⟨?_, scaffoldFiles_idem hpre h1⟩
  simp only [scaffold, noFaults, copyAttempt, htd]
  simp only [if_true]
  cases hg : lookupFile (copyFiltered (relFilesUnder (dirPolicy w pn) td)
      (relFilesUnder (dirPolicy w pn) (targetPath w.cwd pn))) ["gitignore"] with
  | none => simp [hg]
  | some c0 => simp [hg]

/-- Witness for the amended C6: a second run over a world whose target
directory already exists returns the target, and the file `src/app.ts`
present after the first run keeps its content after the second. -/
theorem idempotent_reuse_amended_witness :
    pathExists (dirPolicy ⟨["home"], [["home"], ["home", "app"], ["home", "tpl"]], []⟩
      "app") ["home", "tpl"] = true ∧
    lookupFile [] ["gitignore"] = (none : Option String) ∧
    lookupFile (scaffoldFiles [(["gitignore"], "GI"), (["src", "app.ts"], "A")] [])
      ["src", "app.ts"] = some "A" ∧
    ((scaffold ⟨["home"], [["home"], ["home", "app"], ["home", "tpl"]], []⟩
        "app" ["home", "tpl"] noFaults).outcome
      = Outcome.ok (targetPath ["home"] "app") ∧
      lookupFile (scaffoldFiles [(["gitignore"], "GI"), (["src", "app.ts"], "A")]
          (scaffoldFiles [(["gitignore"], "GI"), (["src", "app.ts"], "A")] []))
        ["src", "app.ts"] = some "A") := by
  have h := idempotent_reuse_amended
    ⟨["home"], [["home"], ["home", "app"], ["home", "tpl"]], []⟩ "app" ["home", "tpl"]
    [(["gitignore"], "GI"), (["src", "app.ts"], "A")] [] ["src", "app.ts"] "A"
    (by decide) rfl (by decide)
  exact ⟨by decide, rfl, by decide, h.1, h.2⟩

/-- Claim C8: a copy error other than "destination already exists"
(modelled by the fault oracle raising at the `k`-th transferred entry) is
fatal: the run exits with code 1, and the files under the target are the
pre-existing ones plus exactly the entries copied before the failure — no
retry produces more, and no rollback removes the partial copy or the
pre-existing files. -/
theorem copy_error_fatal (w : World) (pn : String) (td : Path) (k : Nat) (rf : Bool)
    (htd : pathExists (dirPolicy w pn) td = true)
    (hk : k < (copyList (relFilesUnder (dirPolicy w pn) td)
        (relFilesUnder (dirPolicy w pn) (targetPath w.cwd pn))).length) :
    (scaffold w pn td ⟨some k, rf⟩).outcome = Outcome.exited 1 ∧
    ∀ p : Path, p ≠ [] →
      lookupFile (relFilesUnder (scaffold w pn td ⟨some k, rf⟩).world
          (targetPath w.cwd pn)) p
        = lookupFile (relFilesUnder (dirPolicy w pn) (targetPath w.cwd pn)
            ++ (copyList (relFilesUnder (dirPolicy w pn) td)
                (relFilesUnder (dirPolicy w pn) (targetPath w.cwd pn))).take k) p := by
  have hres : scaffold w pn td ⟨some k, rf⟩
      = ⟨Outcome.exited 1,
          setFilesUnder (dirPolicy w pn) (targetPath w.cwd pn)
            (relFilesUnder (dirPolicy w pn) (targetPath w.cwd pn)
              ++ (copyList (relFilesUnder (dirPolicy w pn) td)
                  (relFilesUnder (dirPolicy w pn) (targetPath w.cwd pn))).take k)⟩ := by
    simp only [scaffold, copyAttempt, htd, hk]
    simp
  rw [hres]
  exact ⟨rfl, fun p hp => lookup_relFilesUnder_set _ _ _ hp⟩

/-- Witness for C8: the copy of the second template entry fails; the run
exits with code 1 and the target holds exactly the first entry. -/
theorem copy_error_fatal_witness :
    pathExists (dirPolicy ⟨["home"], [["home"], ["home", "tpl"]],
        [(["home", "tpl", "a.txt"], "A"), (["home", "tpl", "b.txt"], "B")]⟩ "app")
      ["home", "tpl"] = true ∧
    1 < (copyList (relFilesUnder (dirPolicy ⟨["home"], [["home"], ["home", "tpl"]],
          [(["home", "tpl", "a.txt"], "A"), (["home", "tpl", "b.txt"], "B")]⟩ "app")
          ["home", "tpl"])
        (relFilesUnder (dirPolicy ⟨["home"], [["home"], ["home", "tpl"]],
          [(["home", "tpl", "a.txt"], "A"), (["home", "tpl", "b.txt"], "B")]⟩ "app")
          (targetPath ["home"] "app"))).length ∧
    ((scaffold ⟨["home"], [["home"], ["home", "tpl"]],
        [(["home", "tpl", "a.txt"], "A"), (["home", "tpl", "b.txt"], "B")]⟩
        "app" ["home", "tpl"] ⟨some 1, false⟩).outcome = Outcome.exited 1 ∧
      lookupFile (relFilesUnder (scaffold ⟨["home"], [["home"], ["home", "tpl"]],
          [(["home", "tpl", "a.txt"], "A"), (["home", "tpl", "b.txt"], "B")]⟩
          "app" ["home", "tpl"] ⟨some 1, false⟩).world (targetPath ["home"] "app"))
        ["b.txt"]
        = lookupFile (relFilesUnder (dirPolicy ⟨["home"], [["home"], ["home", "tpl"]],
            [(["home", "tpl", "a.txt"], "A"), (["home", "tpl", "b.txt"], "B")]⟩ "app")
              (targetPath ["home"] "app")
            ++ (copyList (relFilesUnder (dirPolicy ⟨["home"], [["home"], ["home", "tpl"]],
                [(["home", "tpl", "a.txt"], "A"), (["home", "tpl", "b.txt"], "B")]⟩ "app")
                ["home", "tpl"])
              (relFilesUnder (dirPolicy ⟨["home"], [["home"], ["home", "tpl"]],
                [(["home", "tpl", "a.txt"], "A"), (["home", "tpl", "b.txt"], "B")]⟩ "app")
                (targetPath ["home"] "app"))).take 1) ["b.txt"]) := by
  have h := copy_error_fatal ⟨["home"], [["home"], ["home", "tpl"]],
    [(["home", "tpl", "a.txt"], "A"), (["home", "tpl", "b.txt"], "B")]⟩
    "app" ["home", "tpl"] 1 false (by decide) (by decide)
  exact ⟨by decide, by decide, h.1, h.2 ["b.txt"] (by decide)⟩

/-- Claim C10 (implicit): a failure of the rename step alone — the copy
having succeeded in full — also terminates the run with exit code 1,
because the rename executes inside the same try/catch as the copy; the
files under the target are then exactly the completed copy result. -/
theorem rename_error_fatal (w : World) (pn : String) (td : Path) (c : String)
    (htd : pathExists (dirPolicy w pn) td = true)
    (hg : lookupFile (copyFiltered (relFilesUnder (dirPolicy w pn) td)
        (relFilesUnder (dirPolicy w pn) (targetPath w.cwd pn))) ["gitignore"]
      = some c) :
    (scaffold w pn td ⟨none, true⟩).outcome = Outcome.exited 1 ∧
    ∀ p : Path, p ≠ [] →
      lookupFile (relFilesUnder (scaffold w pn td ⟨none, true⟩).world
          (targetPath w.cwd pn)) p
        = lookupFile (copyFiltered (relFilesUnder (dirPolicy w pn) td)
            (relFilesUnder (dirPolicy w pn) (targetPath w.cwd pn))) p := by
  have hres : scaffold w pn td ⟨none, true⟩
      = ⟨Outcome.exited 1,
          setFilesUnder (dirPolicy w pn) (targetPath w.cwd pn)
            (copyFiltered (relFilesUnder (dirPolicy w pn) td)
              (relFilesUnder (dirPolicy w pn) (targetPath w.cwd pn)))⟩ := by
    simp only [scaffold, copyAttempt, htd, hg]
    simp
  rw [hres]
  exact ⟨rfl, fun p hp => lookup_relFilesUnder_set _ _ _ hp⟩

/-- Witness for C10: the template ships `gitignore`, the copy succeeds,
the rename raises, and the run exits with code 1 with the copied file
still present under its dot-free name. -/
theorem rename_error_fatal_witness :
    pathExists (dirPolicy ⟨["home"], [["home"], ["home", "tpl"]],
        [(["home", "tpl", "gitignore"], "G")]⟩ "app") ["home", "tpl"] = true ∧
    lookupFile (copyFiltered (relFilesUnder (dirPolicy ⟨["home"],
          [["home"], ["home", "tpl"]], [(["home", "tpl", "gitignore"], "G")]⟩ "app")
          ["home", "tpl"])
        (relFilesUnder (dirPolicy ⟨["home"], [["home"], ["home", "tpl"]],
          [(["home", "tpl", "gitignore"], "G")]⟩ "app") (targetPath ["home"] "app")))
      ["gitignore"] = some "G" ∧
    ((scaffold ⟨["home"], [["home"], ["home", "tpl"]],
        [(["home", "tpl", "gitignore"], "G")]⟩ "app" ["home", "tpl"]
        ⟨none, true⟩).outcome = Outcome.exited 1 ∧
      lookupFile (relFilesUnder (scaffold ⟨["home"], [["home"], ["home", "tpl"]],
          [(["home", "tpl", "gitignore"], "G")]⟩ "app" ["home", "tpl"]
          ⟨none, true⟩).world (targetPath ["home"] "app")) ["gitignore"]
        = lookupFile (copyFiltered (relFilesUnder (dirPolicy ⟨["home"],
              [["home"], ["home", "tpl"]], [(["home", "tpl", "gitignore"], "G")]⟩ "app")
              ["home", "tpl"])
            (relFilesUnder (dirPolicy ⟨["home"], [["home"], ["home", "tpl"]],
              [(["home", "tpl", "gitignore"], "G")]⟩ "app")
              (targetPath ["home"] "app"))) ["gitignore"]) := by
  have h := rename_error_fatal ⟨["home"], [["home"], ["home", "tpl"]],
    [(["home", "tpl", "gitignore"], "G")]⟩ "app" ["home", "tpl"] "G"
    (by decide) (by decide)
  exact ⟨by decide, by decide, h.1, h.2 ["gitignore"] (by decide)⟩

end CreateBackendApp
